import Mathlib

/-!
Verification of the deepwiki ingestion subsystem.

Shallow embedding of the repository's core components, translated from
`src/deepwiki`:

* `src/deepwiki/utils/gitignore_checker.py` — gitignore-style pattern
  splitting, `fnmatch` glob matching, and the `check_files_and_folders`
  enumeration loop;
* `src/deepwiki/tools/repo_fetcher.py` — `_fetch_git`: URL-path
  decomposition, workspace management and cleanup-on-error;
* `src/deepwiki/tools/code_parser.py` — language classification and
  order-preserving deduplication (`list(dict.fromkeys(...))`);
* `src/deepwiki/tools/parser/python_parser.py` — the `ast.walk`-based
  symbol extraction and the per-file error containment of
  `generate_overall_structure`.

External effects (the `git clone` subprocess, `GitPython` branch lookup,
directory scanning, file reads) are modelled as oracle inputs: an
environment value records each effect's outcome, and the embedded control
flow is translated from the Python source. Python standard-library string
primitives used by the source (`str.strip`, `str.split`, `str.replace`,
`pathlib.PurePath.suffix`, `fnmatch.fnmatch`) are embedded below from
their documented semantics, executably.
-/

set_option maxHeartbeats 1000000

/-! ### Python string primitives -/

/-- Python `s.strip("/")`: drop leading and trailing `'/'` characters. -/
def stripSlashes (s : String) : String :=
  String.mk (((s.toList.dropWhile (fun c => c == '/')).reverse.dropWhile
    (fun c => c == '/')).reverse)

/-- Python `s.strip()`: drop leading and trailing whitespace. -/
def pyStrip (s : String) : String :=
  String.mk (((s.toList.dropWhile Char.isWhitespace).reverse.dropWhile
    Char.isWhitespace).reverse)

/-- Python `s.rstrip("/")`: drop trailing `'/'` characters. -/
def rstripSlashes (s : String) : String :=
  String.mk ((s.toList.reverse.dropWhile (fun c => c == '/')).reverse)

/-- Accumulator pass of Python `s.split("/")`: split at every `'/'`,
keeping empty pieces (so `"a//b"` gives `["a", "", "b"]` and `""` gives
`[""]`). -/
def splitSlashAux : List Char → List Char → List (List Char)
  | [], acc => [acc.reverse]
  | c :: cs, acc =>
    if c == '/' then acc.reverse :: splitSlashAux cs []
    else splitSlashAux cs (c :: acc)

/-- Python `s.split("/")`. -/
def splitSlash (s : String) : List String :=
  (splitSlashAux s.toList []).map String.mk

/-- Fuel-indexed core of Python `s.replace(pat, "")`: delete every
left-to-right, non-overlapping occurrence of `pat`.  Each step consumes at
least one character of `s`, so fuel `s.length` suffices and the `0` arm is
never reached on `pyRemoveAll`'s call. -/
def removeAllAux (pat : List Char) : Nat → List Char → List Char
  | _, [] => []
  | 0, s => s
  | fuel + 1, c :: cs =>
    if pat.isPrefixOf (c :: cs) && !pat.isEmpty then
      removeAllAux pat fuel (List.drop pat.length (c :: cs))
    else
      c :: removeAllAux pat fuel cs

/-- Python `s.replace(pat, "")`. -/
def pyRemoveAll (s : String) (pat : String) : String :=
  String.mk (removeAllAux pat.toList s.toList.length s.toList)

/-- Python `pathlib.PurePath.suffix` applied to a file NAME: the substring
from the last dot on, unless that dot is the name's first character (a
dotfile such as `".py"`) or its last character — in CPython,
`name[i:] if 0 < i < len(name) - 1 else ""` where `i = name.rfind(".")`. -/
def pySuffix (name : List Char) : List Char :=
  match name.reverse.findIdx? (fun c => c == '.') with
  | none => []
  | some j =>
    let i := name.length - 1 - j
    if 0 < i ∧ i < name.length - 1 then name.drop i else []

/-- `pySuffix` on strings. -/
def pySuffixStr (name : String) : String := String.mk (pySuffix name.toList)

/-- Base name of a path given as its component list (`pathlib.PurePath.name`;
the root `/`, components `[]`, has name `""`). -/
def lastName (comps : List String) : String := comps.getLastD ""

/-! ### `fnmatch` shell-glob matching

`GitignoreChecker._is_ignored` tests names with `fnmatch.fnmatch`, whose
documented semantics are: `*` matches any character run, `?` any single
character, `[seq]` a character class (with ranges, `]` literal when first,
`!` negation), every other character itself; the whole name must match.
On POSIX `fnmatch`'s case normalisation is the identity.  The pattern is
tokenised first; an unclosed `[` stands for itself, as in
`fnmatch.translate`. -/

/-- One member of a bracket character class. -/
inductive ClsItem where
  | single (c : Char)
  | range (lo hi : Char)
deriving DecidableEq, Repr

/-- One token of a compiled glob pattern. -/
inductive GlobTok where
  | lit (c : Char)
  | anyChar
  | star
  | cls (negated : Bool) (items : List ClsItem)
deriving DecidableEq, Repr

/-- Scan up to the closing `]`: the content before it and the remainder
after it, or `none` when the bracket never closes. -/
def findClose : List Char → Option (List Char × List Char)
  | [] => none
  | c :: cs =>
    if c == ']' then some ([], cs)
    else
      match findClose cs with
      | none => none
      | some (content, rest) => some (c :: content, rest)

/-- Decompose a bracket expression (the input starts just after `[`):
negation flag, class content, remainder after the closing `]`.  A `]`
directly after `[` or `[!` is literal content. -/
def splitBracket (ps : List Char) : Option (Bool × List Char × List Char) :=
  let (neg, ps1) :=
    match ps with
    | '!' :: t => (true, t)
    | _ => (false, ps)
  match ps1 with
  | ']' :: t =>
    match findClose t with
    | none => none
    | some (content, rest) => some (neg, ']' :: content, rest)
  | _ =>
    match findClose ps1 with
    | none => none
    | some (content, rest) => some (neg, content, rest)

/-- Class content to members: `a-b` is a range, anything else (including a
trailing or leading `-`) is a literal member. -/
def parseItems : List Char → List ClsItem
  | [] => []
  | a :: '-' :: b :: rest => ClsItem.range a b :: parseItems rest
  | a :: rest => ClsItem.single a :: parseItems rest

/-- Fuel-indexed glob tokeniser; each step consumes at least one input
character, so fuel `= length` suffices. -/
def tokenizeAux : Nat → List Char → List GlobTok
  | _, [] => []
  | 0, rest => rest.map GlobTok.lit
  | fuel + 1, c :: rest =>
    if c == '*' then GlobTok.star :: tokenizeAux fuel rest
    else if c == '?' then GlobTok.anyChar :: tokenizeAux fuel rest
    else if c == '[' then
      match splitBracket rest with
      | some (neg, content, r) =>
        GlobTok.cls neg (parseItems content) :: tokenizeAux fuel r
      | none => GlobTok.lit '[' :: tokenizeAux fuel rest
    else GlobTok.lit c :: tokenizeAux fuel rest

/-- Compile a glob pattern to tokens. -/
def tokenizePat (pat : String) : List GlobTok :=
  tokenizeAux pat.toList.length pat.toList

/-- Does a character belong to a class member? Ranges compare code points,
as the regex ranges produced by `fnmatch.translate` do. -/
def clsItemMatch (c : Char) : ClsItem → Bool
  | ClsItem.single a => a == c
  | ClsItem.range lo hi => decide (lo ≤ c) && decide (c ≤ hi)

/-- Fuel-indexed glob matcher.  Every recursive call shrinks
`tokens.length + s.length`, so fuel `tokens.length + s.length + 1`
suffices and the `0` arm is never reached on `fnmatchB`'s call. -/
def globMatchAux : Nat → List GlobTok → List Char → Bool
  | 0, _, _ => false
  | fuel + 1, ps, s =>
    match ps, s with
    | [], [] => true
    | [], _ :: _ => false
    | GlobTok.star :: ps1, [] => globMatchAux fuel ps1 []
    | GlobTok.star :: ps1, c :: cs =>
      globMatchAux fuel ps1 (c :: cs) || globMatchAux fuel (GlobTok.star :: ps1) cs
    | GlobTok.anyChar :: _, [] => false
    | GlobTok.anyChar :: ps1, _ :: cs => globMatchAux fuel ps1 cs
    | GlobTok.lit _ :: _, [] => false
    | GlobTok.lit a :: ps1, c :: cs => a == c && globMatchAux fuel ps1 cs
    | GlobTok.cls _ _ :: _, [] => false
    | GlobTok.cls neg items :: ps1, c :: cs =>
      (neg != items.any (clsItemMatch c)) && globMatchAux fuel ps1 cs

/-- Python `fnmatch.fnmatch(name, pat)` on POSIX. -/
def fnmatchB (name : String) (pat : String) : Bool :=
  let toks := tokenizePat pat
  globMatchAux (toks.length + name.toList.length + 1) toks name.toList

/-! ### `GitignoreChecker` (`src/deepwiki/utils/gitignore_checker.py`) -/

/-- `GitignoreChecker._parse_gitignore` (lines 38–54): strip each line,
keep the non-blank ones that do not start with `#`.  The split of the file
content into lines (`str.splitlines`) is taken as input. -/
def parseGitignoreLines (lines : List String) : List String :=
  (lines.map pyStrip).filter (fun l => !(l.isEmpty) && !(l.toList.headD ' ' == '#'))

/-- `GitignoreChecker._split_gitignore_patterns` (lines 56–74): patterns
ending in `/` are folder patterns (trailing slashes stripped), the rest
are file patterns. -/
def splitGitignorePatterns (pats : List String) : List String × List String :=
  pats.foldl
    (fun acc p =>
      if p.toList.getLast? == some '/' then (acc.1 ++ [rstripSlashes p], acc.2)
      else (acc.1, acc.2 ++ [p]))
    ([], [])

/-- `GitignoreChecker._is_ignored` (lines 76–91): does the name match any
pattern under `fnmatch`? -/
def isIgnored (name : String) (pats : List String) : Bool :=
  pats.any (fun p => fnmatchB name p)

/-- One entry yielded by `base_path.rglob('*')`: its path components
relative to the scan root (never empty — `rglob` yields strict
descendants only) and whether `path.is_file()` holds.  The enumeration
list itself is the oracle input: its order is whatever order the
filesystem reports, which `pathlib` does not sort. -/
structure FSEntry where
  relParts : List String
  isFile : Bool
deriving DecidableEq, Repr

/-- Base names of `path.parents` for a path given by its absolute
component list: every strict prefix's last component, plus `""` for the
filesystem root `/`. -/
def ancestorsNames (comps : List String) : List String :=
  if comps.isEmpty then [] else comps.dropLast.reverse ++ [""]

/-- One iteration of the `check_files_and_folders` loop (lines 105–116):
skip the entry when any parent directory's base name matches a folder
pattern; otherwise, when it is a file whose base name matches no file
pattern and whose suffix is `.py`, append its path relative to the scan
root. -/
def scanStep (folderPats filePats : List String) (baseComps : List String)
    (acc : List String) (e : FSEntry) : List String :=
  if (ancestorsNames (baseComps ++ e.relParts)).any (fun n => isIgnored n folderPats) then
    acc
  else if e.isFile then
    if !isIgnored (lastName e.relParts) filePats
        && (pySuffixStr (lastName e.relParts) == ".py") then
      acc ++ [String.intercalate "/" e.relParts]
    else acc
  else acc

/-- `GitignoreChecker.check_files_and_folders` (lines 93–118) over the
`rglob` enumeration `entries` of a scan root whose absolute path has
components `baseComps`. -/
def checkFilesAndFolders (folderPats filePats : List String) (baseComps : List String)
    (entries : List FSEntry) : List String :=
  entries.foldl (scanStep folderPats filePats baseComps) []

/-- The exclusion rule applied to one absolute path, read off the same
loop: excluded when an ancestor directory's base name matches a folder
pattern, or the path's own base name matches a file pattern. -/
def pathExcluded (folderPats filePats : List String) (absParts : List String) : Bool :=
  (ancestorsNames absParts).any (fun n => isIgnored n folderPats)
    || isIgnored (lastName absParts) filePats

/-- The per-entry inclusion test that `checkFilesAndFolders` implements;
used to state its characterisation. -/
def includedEntry (folderPats filePats : List String) (baseComps : List String)
    (e : FSEntry) : Bool :=
  !(ancestorsNames (baseComps ++ e.relParts)).any (fun n => isIgnored n folderPats)
    && e.isFile
    && !isIgnored (lastName e.relParts) filePats
    && (pySuffixStr (lastName e.relParts) == ".py")

/-! ### `_fetch_git` (`src/deepwiki/tools/repo_fetcher.py`, lines 44–120)

`urlparse(repo_url).path` is standard-library URL parsing; the parsed
path component is taken as input (`urlPath`).  The clone subprocess, the
GitPython branch lookup and the directory scan are external effects,
recorded in a `CloneEnv` oracle; the control flow around them — including
the `try/except` that removes the workspace directory and re-raises — is
translated from the source.  The second component of the result tracks
whether the workspace directory `clone_dir` exists on disk when the call
returns or the error propagates. -/

/-- `path_parts = parsed_url.path.strip("/").split("/")` (line 48). -/
def pathParts (urlPath : String) : List String :=
  splitSlash (stripSlashes urlPath)

/-- `repo_name = path_parts[1].replace(".git", "")` (line 55), `none` when
the URL has fewer than two path segments (line 50 raises `ValueError`). -/
def repoNameOfPath (urlPath : String) : Option String :=
  match pathParts urlPath with
  | _ :: seg :: _ => some (pyRemoveAll seg ".git")
  | _ => none

/-- The errors `_fetch_git` raises: invalid URL (line 51), clone timeout
(line 83), non-zero clone exit (line 87), branch lookup failure (lines
90–91), scan/structure failure (lines 102–110). -/
inductive FetchError where
  | invalidUrl
  | cloneTimeout
  | cloneFailed (stderrText : String)
  | branchFailed (msg : String)
  | scanFailed (msg : String)
deriving DecidableEq, Repr

/-- Outcomes of the external effects of one `_fetch_git` run. -/
structure CloneEnv where
  /-- whether `git clone` created the workspace directory before finishing
  or being interrupted (the directory is created by the subprocess). -/
  createsDir : Bool
  /-- `asyncio.wait_for` expired before the subprocess finished. -/
  timesOut : Bool
  /-- the clone subprocess's exit code. -/
  exitCode : Int
  /-- the clone subprocess's captured stderr. -/
  stderrText : String
  /-- `Repo(clone_dir).active_branch.name`, or the exception it raises. -/
  branch : Except String String
  /-- `_scan_directory(clone_dir)`, or the exception it (or the
  languages/structure steps) raises. -/
  scan : Except String (List String)

/-- The `Repository` model the run returns (`workflow/state.py`); the
`structure` and `languages` dictionaries carry no claim-relevant
information and are omitted. -/
structure Repository where
  url : String
  name : String
  localPath : String
  branch : String
  files : List String
  totalFiles : Nat
deriving DecidableEq, Repr

/-- The `try` block of `_fetch_git` (lines 65–113): result plus whether
`clone_dir` exists at the exit point (return or raise). -/
def fetchGitTry (repoUrl owner name : String) (env : CloneEnv) :
    Except FetchError Repository × Bool :=
  let dirNow := env.createsDir
  if env.timesOut then
    (Except.error FetchError.cloneTimeout, dirNow)
  else if env.exitCode ≠ 0 then
    (Except.error (FetchError.cloneFailed env.stderrText), dirNow)
  else
    match env.branch with
    | Except.error m => (Except.error (FetchError.branchFailed m), dirNow)
    | Except.ok br =>
      match env.scan with
      | Except.error m => (Except.error (FetchError.scanFailed m), dirNow)
      | Except.ok files =>
        (Except.ok
          { url := repoUrl, name := name, localPath := owner ++ "_" ++ name,
            branch := br, files := files, totalFiles := files.length },
          dirNow)

/-- `_fetch_git` (lines 44–120).  `preExistingDir`: whether a leftover
workspace directory for this owner/name slot exists when the call starts;
lines 61–62 remove it before cloning.  The `except` clause (lines
116–120) removes `clone_dir` when it exists and re-raises. -/
def fetchGit (repoUrl urlPath : String) (env : CloneEnv) (preExistingDir : Bool) :
    Except FetchError Repository × Bool :=
  match pathParts urlPath with
  | owner :: seg :: _ =>
    let name := pyRemoveAll seg ".git"
    match fetchGitTry repoUrl owner name env with
    | (Except.ok repo, dirNow) => (Except.ok repo, dirNow)
    | (Except.error e, dirNow) => (Except.error e, if dirNow then false else dirNow)
  | _ => (Except.error FetchError.invalidUrl, preExistingDir)

/-! ### `parse` (`src/deepwiki/tools/code_parser.py`) -/

/-- Modelled from the spec: the extension→tag table `settings.LANGUAGE_MAP`
that line 23 of `code_parser.py` reads.  The `Settings` class in
`src/deepwiki/config.py` declares no such field, so the table itself is
missing from the source; §4.3 of the spec gives `.py→"python"`,
`.rs→"rust"`, `.go→"go"`, "etc." with unmapped extensions answering
`"unknown"`. -/
def LANGUAGE_MAP : List (String × String) :=
  [(".py", "python"), (".rs", "rust"), (".go", "go"), (".java", "java"),
   (".js", "javascript")]

/-- The final path component of `full_path` (`pathlib`'s `name`). -/
def pathNameOf (p : String) : String := lastName (splitSlash p)

/-- `ext = full_path.suffix.lower()` (line 22). -/
def extOf (p : String) : String :=
  String.mk ((pySuffix (pathNameOf p).toList).map Char.toLower)

/-- Language detection of `parse` (lines 21–23):
`settings.LANGUAGE_MAP.get(ext, "unknown")`. -/
def classify (path : String) : String :=
  match LANGUAGE_MAP.lookup (extOf path) with
  | some tag => tag
  | none => "unknown"

/-- Core of Python's insertion-ordered `dict.fromkeys`: emit each element
at its first occurrence, remembering the keys already seen. -/
def dictFromKeysAux (seen : List String) : List String → List String
  | [] => []
  | x :: xs =>
    if x ∈ seen then dictFromKeysAux seen xs
    else x :: dictFromKeysAux (x :: seen) xs

/-- `list(dict.fromkeys(xs))` — the flat-mode deduplication of `parse`
(lines 30–32): order-preserving removal of later duplicates. -/
def dictFromKeys (xs : List String) : List String := dictFromKeysAux [] xs

/-! ### `PythonParser` (`src/deepwiki/tools/parser/python_parser.py`)

The Python syntax tree built by the standard library's `ast.parse` is
taken as input.  Only node features the source reads are modelled: the
constructor kind, `name`, `lineno`, `end_lineno`, the positional
parameter names `args.args`, and the child list that `ast.iter_child_nodes`
yields.  Statements other than function/class definitions are collapsed
into `otherStmt` (they emit no record; their children still get walked,
which is how defs nested under `if`/`try` bodies are reached). -/

inductive PyNode where
  | module (body : List PyNode)
  | classDef (name : String) (lineno endLineno : Nat) (body : List PyNode)
  | functionDef (name : String) (lineno endLineno : Nat) (argNames : List String)
      (body : List PyNode)
  | asyncFunctionDef (name : String) (lineno endLineno : Nat) (argNames : List String)
      (body : List PyNode)
  | otherStmt (lineno : Nat) (sub : List PyNode)
deriving Repr

/-- `ast.iter_child_nodes`. -/
def childrenOf : PyNode → List PyNode
  | PyNode.module b => b
  | PyNode.classDef _ _ _ b => b
  | PyNode.functionDef _ _ _ _ b => b
  | PyNode.asyncFunctionDef _ _ _ _ b => b
  | PyNode.otherStmt _ b => b

/-- The tuple `get_functions_and_classes` appends per definition node
(lines 109–111): `(type(node).__name__, node.name, start_line, end_line,
params)`.  The tuple has five components; no parent name is among them. -/
structure SymbolTuple where
  nodeType : String
  name : String
  startLine : Nat
  endLine : Nat
  params : List String
deriving DecidableEq, Repr

/-- The record emitted for one walked node (lines 100–111): definition
nodes yield their tuple — `params` is `[arg.arg for arg in node.args.args]`
when the node has an `args` attribute (functions) and `[]` otherwise
(classes) — and every other node yields nothing. -/
def recordOf : PyNode → Option SymbolTuple
  | PyNode.classDef n s e _ => some ⟨"ClassDef", n, s, e, []⟩
  | PyNode.functionDef n s e args _ => some ⟨"FunctionDef", n, s, e, args⟩
  | PyNode.asyncFunctionDef n s e args _ => some ⟨"AsyncFunctionDef", n, s, e, args⟩
  | PyNode.module _ => none
  | PyNode.otherStmt _ _ => none

/-- `sizeOf` of a node's children is below the node's own `sizeOf` (the
children list is one of the constructor's fields). -/
theorem childrenOf_sizeOf_lt (n : PyNode) : sizeOf (childrenOf n) < sizeOf n := by
  cases n <;> simp [childrenOf]

/-- `sizeOf` of an appended node list. -/
theorem pyList_sizeOf_append (l₁ l₂ : List PyNode) :
    sizeOf (l₁ ++ l₂) + 1 = sizeOf l₁ + sizeOf l₂ := by
  induction l₁ with
  | nil => simp only [List.nil_append, List.nil.sizeOf_spec]; omega
  | cons h t ih => simp only [List.cons_append, List.cons.sizeOf_spec]; omega

/-- CPython's `ast.walk`: pop the queue front, yield it, append its
children to the queue — a FIFO breadth-first enumeration. -/
def walkList (q : List PyNode) : List PyNode :=
  match q with
  | [] => []
  | n :: rest => n :: walkList (rest ++ childrenOf n)
termination_by sizeOf q
decreasing_by
  have h1 := pyList_sizeOf_append rest (childrenOf n)
  have h2 := childrenOf_sizeOf_lt n
  simp only [List.cons.sizeOf_spec]
  omega

/-- `get_functions_and_classes` (lines 93–112) on a parsed tree: walk with
`ast.walk` and collect the tuple of every `FunctionDef`, `ClassDef` or
`AsyncFunctionDef` node. -/
def getFunctionsAndClasses (tree : PyNode) : List SymbolTuple :=
  (walkList [tree]).filterMap recordOf

mutual

/-- Number of nodes of a tree (used as fuel for the pre-order walk). -/
def nodeCount : PyNode → Nat
  | PyNode.module b => 1 + nodeCountList b
  | PyNode.classDef _ _ _ b => 1 + nodeCountList b
  | PyNode.functionDef _ _ _ _ b => 1 + nodeCountList b
  | PyNode.asyncFunctionDef _ _ _ _ b => 1 + nodeCountList b
  | PyNode.otherStmt _ b => 1 + nodeCountList b

/-- Number of nodes of a forest. -/
def nodeCountList : List PyNode → Nat
  | [] => 0
  | n :: t => nodeCount n + nodeCountList t

end

/-- Fuel-indexed depth-first pre-order enumeration (explicit stack). -/
def preorderAux : Nat → List PyNode → List PyNode
  | _, [] => []
  | 0, q => q
  | fuel + 1, n :: rest => n :: preorderAux fuel (childrenOf n ++ rest)

/-- Depth-first pre-order node enumeration of a tree; each step of
`preorderAux` pops one node and pushes exactly its children, so fuel
`nodeCount t` is exactly the number of steps and the `0` arm is never
reached. -/
def preorderNodes (t : PyNode) : List PyNode := preorderAux (nodeCount t) [t]

/-- Modelled from the spec: the record order §4.5 claims — "in tree
pre-order (so a class's record always precedes the records of its
methods)", i.e. the records collected along a depth-first pre-order
traversal.  Stated for comparison with the source's `ast.walk` order. -/
def preorderRecords (t : PyNode) : List SymbolTuple :=
  (preorderNodes t).filterMap recordOf

/-- `d` is a strict descendant of `p` in the syntax tree (`d` occurs in
`p`'s body, at any depth). -/
inductive Desc : PyNode → PyNode → Prop
  | child {c p : PyNode} : c ∈ childrenOf p → Desc c p
  | step {c m p : PyNode} : c ∈ childrenOf m → Desc m p → Desc c p

/-! ### `generate_overall_structure` (`python_parser.py`, lines 159–204)

The loop body calls `generate_file_structure` (file I/O plus parsing) per
enumerated file; each call's outcome is an oracle input, `Except.error`
standing for any raised exception (file not found, `UnicodeDecodeError`,
the `ValueError` that `get_functions_and_classes` wraps around a
`SyntaxError`, …).  The `try/except` at lines 194–202 logs the error and
continues with the next file; successes are inserted into
`repo_structure` in loop order. -/
def generateOverallStructure {α : Type} (runs : List (String × Except String α)) :
    List (String × α) :=
  runs.foldl
    (fun acc r =>
      match r.2 with
      | Except.ok v => acc ++ [(r.1, v)]
      | Except.error _ => acc)
    []

/-! ### Concrete inputs used by the theorems -/

/-- The syntax tree of the spec §8 example
(`class Foo: def bar(self, x): return x` / `def baz(y): pass`):
`Module` containing `ClassDef Foo` (lines 1–3, body: `FunctionDef bar`,
lines 2–3, params `self, x`) and `FunctionDef baz` (lines 4–5, param `y`). -/
def specExampleTree : PyNode :=
  PyNode.module
    [PyNode.classDef "Foo" 1 3
      [PyNode.functionDef "bar" 2 3 ["self", "x"] [PyNode.otherStmt 3 []]],
     PyNode.functionDef "baz" 4 5 ["y"] [PyNode.otherStmt 5 []]]

/-- A tree with a def nested two levels below the first class:
`class A: def f(self): def g(): ...` followed by `class B: def h(self)`. -/
def nestedDefsTree : PyNode :=
  PyNode.module
    [PyNode.classDef "A" 1 3
      [PyNode.functionDef "f" 2 3 ["self"] [PyNode.functionDef "g" 3 3 [] []]],
     PyNode.classDef "B" 4 5
      [PyNode.functionDef "h" 5 5 ["self"] []]]

/-! ### Lemmas about the `ast.walk` queue -/

theorem walkList_nil : walkList [] = [] := by simp [walkList]

theorem walkList_cons (n : PyNode) (rest : List PyNode) :
    walkList (n :: rest) = n :: walkList (rest ++ childrenOf n) := by
  rw [walkList]

/-- Unrolling the walk across a queue split: the whole front is emitted
first, and its children are queued behind the remainder. -/
theorem walkList_decomp (q₁ : List PyNode) :
    ∀ q₂, walkList (q₁ ++ q₂) = q₁ ++ walkList (q₂ ++ q₁.flatMap childrenOf) := by
  induction q₁ with
  | nil => intro q₂; simp
  | cons n t ih =>
    intro q₂
    rw [List.cons_append, walkList_cons, List.append_assoc, ih (q₂ ++ childrenOf n)]
    simp [List.append_assoc]

/-- The walk emits the whole queue first, then the walk of all its
children: `ast.walk` is a level (breadth-first) enumeration. -/
theorem walkList_levels (q : List PyNode) :
    walkList q = q ++ walkList (q.flatMap childrenOf) := by
  simpa using walkList_decomp q []

theorem mem_walkList_of_mem {x : PyNode} {q : List PyNode} (h : x ∈ q) :
    x ∈ walkList q := by
  rw [walkList_levels]; exact List.mem_append_left _ h

/-- Children of any emitted node are emitted too (bounded recursion on the
queue's `sizeOf`). -/
theorem walkList_children_closed_aux (N : Nat) :
    ∀ q : List PyNode, sizeOf q ≤ N →
      ∀ x ∈ walkList q, ∀ c ∈ childrenOf x, c ∈ walkList q := by
  induction N with
  | zero =>
    intro q hq
    cases q with
    | nil => intro x hx; rw [walkList_nil] at hx; exact absurd hx (List.not_mem_nil x)
    | cons n t => simp only [List.cons.sizeOf_spec] at hq; omega
  | succ N ih =>
    intro q hq
    cases q with
    | nil => intro x hx; rw [walkList_nil] at hx; exact absurd hx (List.not_mem_nil x)
    | cons n rest =>
      intro x hx c hc
      rw [walkList_cons] at hx ⊢
      rcases List.mem_cons.1 hx with hxe | hxW
      · subst hxe
        exact List.mem_cons_of_mem _ (mem_walkList_of_mem (List.mem_append_right rest hc))
      · have hlt : sizeOf (rest ++ childrenOf n) ≤ N := by
          have h1 := pyList_sizeOf_append rest (childrenOf n)
          have h2 := childrenOf_sizeOf_lt n
          simp only [List.cons.sizeOf_spec] at hq
          omega
        exact List.mem_cons_of_mem _ (ih (rest ++ childrenOf n) hlt x hxW c hc)

theorem walkList_children_closed {q : List PyNode} {x : PyNode} (hx : x ∈ walkList q)
    {c : PyNode} (hc : c ∈ childrenOf x) : c ∈ walkList q :=
  walkList_children_closed_aux (sizeOf q) q le_rfl x hx c hc

/-- Strict descendants of the node at the queue's front are all emitted by
the continuation queue. -/
theorem desc_mem_walkList_children {n d : PyNode} {rest : List PyNode}
    (hd : Desc d n) : d ∈ walkList (rest ++ childrenOf n) := by
  induction hd with
  | child h => exact mem_walkList_of_mem (List.mem_append_right rest h)
  | step h _ ih => exact walkList_children_closed ih h

/-- Every emitted node's strict descendants are emitted too. -/
theorem desc_mem_walkList {q : List PyNode} {x d : PyNode} (hx : x ∈ walkList q)
    (hd : Desc d x) : d ∈ walkList q := by
  induction hd with
  | child h => exact walkList_children_closed hx h
  | step h _ ih => exact walkList_children_closed (ih hx) h

/-- Position lemma: every emitted node splits the walk, and all of its
strict descendants are emitted after it. -/
theorem walkList_split_aux (N : Nat) :
    ∀ q : List PyNode, sizeOf q ≤ N → ∀ c ∈ walkList q,
      ∃ A B, walkList q = A ++ c :: B ∧ ∀ d, Desc d c → d ∈ B := by
  induction N with
  | zero =>
    intro q hq
    cases q with
    | nil => intro c hc; rw [walkList_nil] at hc; exact absurd hc (List.not_mem_nil c)
    | cons n t => simp only [List.cons.sizeOf_spec] at hq; omega
  | succ N ih =>
    intro q hq c hc
    cases q with
    | nil => rw [walkList_nil] at hc; exact absurd hc (List.not_mem_nil c)
    | cons n rest =>
      rw [walkList_cons] at hc ⊢
      rcases List.mem_cons.1 hc with hce | hcW
      · subst hce
        refine ⟨[], walkList (rest ++ childrenOf c), by simp, ?_⟩
        intro d hd
        exact desc_mem_walkList_children hd
      · have hlt : sizeOf (rest ++ childrenOf n) ≤ N := by
          have h1 := pyList_sizeOf_append rest (childrenOf n)
          have h2 := childrenOf_sizeOf_lt n
          simp only [List.cons.sizeOf_spec] at hq
          omega
        obtain ⟨A, B, hAB, hB⟩ := ih (rest ++ childrenOf n) hlt c hcW
        exact ⟨n :: A, B, by rw [hAB]; rfl, hB⟩

theorem walkList_split {q : List PyNode} {c : PyNode} (hc : c ∈ walkList q) :
    ∃ A B, walkList q = A ++ c :: B ∧ ∀ d, Desc d c → d ∈ B :=
  walkList_split_aux (sizeOf q) q le_rfl c hc

/-! ### Lemmas about the scan loop -/

/-- One loop iteration appends the entry's relative path exactly when the
inclusion test passes. -/
theorem scanStep_eq (fp gp base : List String) (acc : List String) (e : FSEntry) :
    scanStep fp gp base acc e
      = acc ++ (if includedEntry fp gp base e then
          [String.intercalate "/" e.relParts] else []) := by
  cases h1 : (ancestorsNames (base ++ e.relParts)).any (fun n => isIgnored n fp) <;>
    cases h2 : e.isFile <;>
      cases h3 : isIgnored (lastName e.relParts) gp <;>
        cases h4 : pySuffixStr (lastName e.relParts) == ".py" <;>
          simp [scanStep, includedEntry, h1, h2, h3, h4]

theorem checkFF_go (fp gp base : List String) :
    ∀ (entries : List FSEntry) (acc : List String),
      entries.foldl (scanStep fp gp base) acc
        = acc ++ (entries.filter (includedEntry fp gp base)).map
            (fun e => String.intercalate "/" e.relParts) := by
  intro entries
  induction entries with
  | nil => intro acc; simp
  | cons e rest ih =>
    intro acc
    rw [List.foldl_cons, scanStep_eq, ih, List.filter_cons]
    by_cases h : includedEntry fp gp base e = true
    · simp [h]
    · simp [h]

/-- `check_files_and_folders` returns exactly the entries passing the
inclusion test, in the order the filesystem enumeration yields them. -/
theorem checkFilesAndFolders_eq_filter (fp gp base : List String)
    (entries : List FSEntry) :
    checkFilesAndFolders fp gp base entries
      = (entries.filter (includedEntry fp gp base)).map
          (fun e => String.intercalate "/" e.relParts) := by
  unfold checkFilesAndFolders
  rw [checkFF_go]
  simp

/-- A member of the scan root's own absolute components is an ancestor
name of every candidate path below the root. -/
theorem mem_ancestorsNames_of_mem_base {c : String} {base rel : List String}
    (hc : c ∈ base) (hrel : rel ≠ []) : c ∈ ancestorsNames (base ++ rel) := by
  cases rel with
  | nil => exact absurd rfl hrel
  | cons r rs =>
    have h1 : (base ++ r :: rs).isEmpty = false := by
      cases base <;> simp
    simp only [ancestorsNames, h1, Bool.false_eq_true, if_false]
    rw [List.dropLast_append_cons]
    exact List.mem_append_left _ (List.mem_reverse.2 (List.mem_append_left _ hc))

/-! ### Lemmas about flat-mode deduplication -/

theorem dictFromKeysAux_not_mem_seen :
    ∀ (xs seen : List String) (x : String), x ∈ dictFromKeysAux seen xs → x ∉ seen := by
  intro xs
  induction xs with
  | nil => intro seen x hx; simp [dictFromKeysAux] at hx
  | cons y t ih =>
    intro seen x hx
    simp only [dictFromKeysAux] at hx
    split at hx
    · exact ih seen x hx
    · rcases List.mem_cons.1 hx with hxy | hxt
      · subst hxy; assumption
      · intro hs
        exact ih (y :: seen) x hxt (List.mem_cons_of_mem y hs)

theorem dictFromKeysAux_nodup : ∀ (xs seen : List String), (dictFromKeysAux seen xs).Nodup := by
  intro xs
  induction xs with
  | nil => intro seen; simp [dictFromKeysAux]
  | cons y t ih =>
    intro seen
    simp only [dictFromKeysAux]
    split
    · exact ih seen
    · refine List.nodup_cons.2 ⟨?_, ih (y :: seen)⟩
      intro hmem
      exact dictFromKeysAux_not_mem_seen t (y :: seen) y hmem (List.mem_cons_self y seen)

theorem dictFromKeysAux_of_nodup :
    ∀ (ys seen : List String), ys.Nodup → (∀ y ∈ ys, y ∉ seen) →
      dictFromKeysAux seen ys = ys := by
  intro ys
  induction ys with
  | nil => intro seen _ _; rfl
  | cons y t ih =>
    intro seen hnd hdisj
    simp only [dictFromKeysAux]
    rw [if_neg (hdisj y (List.mem_cons_self y t))]
    congr 1
    refine ih (y :: seen) (List.nodup_cons.1 hnd).2 ?_
    intro z hz hmem
    rcases List.mem_cons.1 hmem with h1 | h2
    · exact (List.nodup_cons.1 hnd).1 (h1 ▸ hz)
    · exact hdisj z (List.mem_cons_of_mem y hz) h2

/-! ### Lemmas about the per-file extraction loop -/

theorem generateOverallStructure_eq_filterMap {α : Type}
    (runs : List (String × Except String α)) :
    generateOverallStructure runs
      = runs.filterMap (fun r =>
          match r.2 with
          | Except.ok v => some (r.1, v)
          | Except.error _ => none) := by
  suffices h : ∀ (l : List (String × Except String α)) (acc : List (String × α)),
      l.foldl (fun acc r =>
        match r.2 with
        | Except.ok v => acc ++ [(r.1, v)]
        | Except.error _ => acc) acc
        = acc ++ l.filterMap (fun r =>
            match r.2 with
            | Except.ok v => some (r.1, v)
            | Except.error _ => none) by
    simpa [generateOverallStructure] using h runs []
  intro l
  induction l with
  | nil => intro acc; simp
  | cons r t ih =>
    intro acc
    rcases r with ⟨rn, re⟩
    cases re with
    | ok v => simp [List.foldl_cons, List.filterMap_cons, ih]
    | error m => simp [List.foldl_cons, List.filterMap_cons, ih]

/-! ### The claims -/

/-- C1: for every `_fetch_git` invocation on a URL with at least two path
segments (so the run reaches the workspace phase), any error propagating
out of the `try` block — clone timeout, non-zero clone exit, branch
lookup failure, scan failure — leaves no workspace directory on disk: the
`except` clause removes `clone_dir` before re-raising.  In particular a
clone exceeding the timeout yields exactly the timeout error with the
directory removed. -/
theorem fetchGit_cleanup_on_error (repoUrl urlPath owner seg : String)
    (rest : List String) (env : CloneEnv) (pre : Bool)
    (hparts : pathParts urlPath = owner :: seg :: rest) :
    (∀ e : FetchError, (fetchGit repoUrl urlPath env pre).1 = Except.error e →
        (fetchGit repoUrl urlPath env pre).2 = false)
    ∧ (env.timesOut = true →
        fetchGit repoUrl urlPath env pre = (Except.error FetchError.cloneTimeout, false)) := by
  have hmain : fetchGit repoUrl urlPath env pre
      = match fetchGitTry repoUrl owner (pyRemoveAll seg ".git") env with
        | (Except.ok repo, dirNow) => (Except.ok repo, dirNow)
        | (Except.error e, dirNow) => (Except.error e, if dirNow then false else dirNow) := by
    unfold fetchGit
    rw [hparts]
  constructor
  · intro e he
    rcases hr : fetchGitTry repoUrl owner (pyRemoveAll seg ".git") env with ⟨res, dir⟩
    rw [hr] at hmain
    cases res with
    | ok repo => rw [hmain] at he; simp at he
    | error e2 => rw [hmain]; cases dir <;> rfl
  · intro ht
    have htry : fetchGitTry repoUrl owner (pyRemoveAll seg ".git") env
        = (Except.error FetchError.cloneTimeout, env.createsDir) := by
      unfold fetchGitTry
      rw [ht]
      rfl
    rw [htry] at hmain
    rw [hmain]
    cases env.createsDir <;> rfl

/-- Witness for C1 at a concrete input: a timed-out clone of
`https://github.com/octo/demo.git` that did create the workspace
directory ends in the timeout error with the directory removed. -/
theorem fetchGit_cleanup_on_error_witness :
    fetchGit "https://github.com/octo/demo.git" "/octo/demo.git"
      { createsDir := true, timesOut := true, exitCode := 0, stderrText := "",
        branch := Except.ok "main", scan := Except.ok [] } false
      = (Except.error FetchError.cloneTimeout, false) :=
  (fetchGit_cleanup_on_error "https://github.com/octo/demo.git" "/octo/demo.git"
    "octo" "demo.git" []
    { createsDir := true, timesOut := true, exitCode := 0, stderrText := "",
      branch := Except.ok "main", scan := Except.ok [] } false (by decide)).2 rfl

/-- C2 (code evaluated at the failing input): on the spec §8 example
(`class Foo` with method `bar`, then top-level `baz`),
`get_functions_and_classes` emits five-component tuples
`(type, name, start_line, end_line, params)` with no parent-name
component at all — `bar`'s record does not carry `"Foo"` (or any parent
field), although the function's own docstring documents a parent element
and `add_parent_references` computes parent pointers that lines 109–111
never read. -/
theorem getFunctionsAndClasses_emits_no_parent :
    getFunctionsAndClasses specExampleTree =
      [⟨"ClassDef", "Foo", 1, 3, []⟩,
       ⟨"FunctionDef", "baz", 4, 5, ["y"]⟩,
       ⟨"FunctionDef", "bar", 2, 3, ["self", "x"]⟩] := by
  simp [getFunctionsAndClasses, specExampleTree, walkList_cons, walkList_nil,
    childrenOf, recordOf]

/-- C3 counterexample: `ast.walk` enumerates breadth-first, not in
depth-first pre-order.  On `class A: def f: def g` followed by
`class B: def h`, the source emits `A, B, f, h, g` while depth-first
pre-order is `A, f, g, B, h`; the two orders differ. -/
theorem getFunctionsAndClasses_not_preorder_cex :
    getFunctionsAndClasses nestedDefsTree =
      [⟨"ClassDef", "A", 1, 3, []⟩, ⟨"ClassDef", "B", 4, 5, []⟩,
       ⟨"FunctionDef", "f", 2, 3, ["self"]⟩, ⟨"FunctionDef", "h", 5, 5, ["self"]⟩,
       ⟨"FunctionDef", "g", 3, 3, []⟩]
    ∧ preorderRecords nestedDefsTree =
      [⟨"ClassDef", "A", 1, 3, []⟩, ⟨"FunctionDef", "f", 2, 3, ["self"]⟩,
       ⟨"FunctionDef", "g", 3, 3, []⟩, ⟨"ClassDef", "B", 4, 5, []⟩,
       ⟨"FunctionDef", "h", 5, 5, ["self"]⟩]
    ∧ getFunctionsAndClasses nestedDefsTree ≠ preorderRecords nestedDefsTree := by
  have h1 : getFunctionsAndClasses nestedDefsTree =
      [⟨"ClassDef", "A", 1, 3, []⟩, ⟨"ClassDef", "B", 4, 5, []⟩,
       ⟨"FunctionDef", "f", 2, 3, ["self"]⟩, ⟨"FunctionDef", "h", 5, 5, ["self"]⟩,
       ⟨"FunctionDef", "g", 3, 3, []⟩] := by
    simp [getFunctionsAndClasses, nestedDefsTree, walkList_cons, walkList_nil,
      childrenOf, recordOf]
  have h2 : preorderRecords nestedDefsTree =
      [⟨"ClassDef", "A", 1, 3, []⟩, ⟨"FunctionDef", "f", 2, 3, ["self"]⟩,
       ⟨"FunctionDef", "g", 3, 3, []⟩, ⟨"ClassDef", "B", 4, 5, []⟩,
       ⟨"FunctionDef", "h", 5, 5, ["self"]⟩] := by decide
  exact ⟨h1, h2, by rw [h1, h2]; decide⟩

/-- C3 (amended): the records are emitted in the breadth-first order of
`ast.walk`, which is not depth-first pre-order in general; but ancestors
still precede descendants, so for every definition node `c` walked and
every definition `d` nested anywhere inside `c`'s body, `c`'s record
precedes `d`'s record in the output. -/
theorem getFunctionsAndClasses_ancestor_precedes
    (t c d : PyNode) (rc rd : SymbolTuple)
    (hc : c ∈ walkList [t]) (hdesc : Desc d c)
    (hrc : recordOf c = some rc) (hrd : recordOf d = some rd) :
    ∃ A B, getFunctionsAndClasses t = A ++ rc :: B ∧ rd ∈ B := by
  obtain ⟨A, B, hAB, hB⟩ := walkList_split hc
  refine ⟨A.filterMap recordOf, B.filterMap recordOf, ?_, ?_⟩
  · unfold getFunctionsAndClasses
    rw [hAB]
    simp [List.filterMap_append, List.filterMap_cons, hrc]
  · exact List.mem_filterMap.2 ⟨d, hB d hdesc, hrd⟩

/-- Witness for C3 (amended) at a concrete input: in the spec §8 example
the record of class `Foo` precedes the record of its method `bar`. -/
theorem getFunctionsAndClasses_ancestor_precedes_witness :
    ∃ A B, getFunctionsAndClasses specExampleTree
        = A ++ (⟨"ClassDef", "Foo", 1, 3, []⟩ : SymbolTuple) :: B
      ∧ (⟨"FunctionDef", "bar", 2, 3, ["self", "x"]⟩ : SymbolTuple) ∈ B :=
  getFunctionsAndClasses_ancestor_precedes specExampleTree
    (PyNode.classDef "Foo" 1 3
      [PyNode.functionDef "bar" 2 3 ["self", "x"] [PyNode.otherStmt 3 []]])
    (PyNode.functionDef "bar" 2 3 ["self", "x"] [PyNode.otherStmt 3 []])
    ⟨"ClassDef", "Foo", 1, 3, []⟩ ⟨"FunctionDef", "bar", 2, 3, ["self", "x"]⟩
    (by simp [specExampleTree, walkList_cons, walkList_nil, childrenOf])
    (Desc.child (by simp [childrenOf]))
    rfl rfl

/-- C4: splitting the pattern set `["build/", "*.log"]` yields folder
pattern `build` and file pattern `*.log`; the path `build/x.log` is
excluded because the ancestor directory name `build` matches the folder
pattern — whatever the file-pattern list is — and the path `src/a.log` is
excluded by the file rule (its base name matches `*.log` under shell-glob
semantics, while no ancestor of it matches the folder pattern). -/
theorem pathExcluded_build_and_log :
    splitGitignorePatterns ["build/", "*.log"] = (["build"], ["*.log"])
    ∧ (∀ filePats : List String,
        pathExcluded ["build"] filePats ["build", "x.log"] = true)
    ∧ pathExcluded ["build"] ["*.log"] ["src", "a.log"] = true
    ∧ (ancestorsNames ["src", "a.log"]).any (fun n => isIgnored n ["build"]) = false
    ∧ isIgnored "a.log" ["*.log"] = true := by
  refine ⟨by decide, ?_, by decide, by decide, by decide⟩
  intro filePats
  have h : (ancestorsNames ["build", "x.log"]).any (fun n => isIgnored n ["build"]) = true := by
    decide
  unfold pathExcluded
  rw [h]
  rfl

/-- C5 counterexample: the enumeration is NOT returned in directory-then-
name sorted order; it follows the filesystem enumeration order.  With no
ignore patterns, a scan whose filesystem yields `b.py` before `a.py`
returns `["b.py", "a.py"]`, not the sorted `["a.py", "b.py"]`. -/
theorem checkFilesAndFolders_unsorted_cex :
    checkFilesAndFolders [] [] ["root"]
        [⟨["b.py"], true⟩, ⟨["a.py"], true⟩]
      = ["b.py", "a.py"]
    ∧ (["b.py", "a.py"] ≠ ["a.py", "b.py"]) := by
  exact ⟨by decide, by decide⟩

/-- C5 (amended): the enumeration returns exactly the relative paths of
the entries that survive the folder-pattern ancestor check and the
file-pattern check and whose extension is the hard-coded `.py` (there is
no extension parameter), in the order of the underlying filesystem
enumeration — a sublist of it — not in sorted order. -/
theorem checkFilesAndFolders_follows_enumeration
    (folderPats filePats baseComps : List String) (entries : List FSEntry) :
    checkFilesAndFolders folderPats filePats baseComps entries
      = (entries.filter (includedEntry folderPats filePats baseComps)).map
          (fun e => String.intercalate "/" e.relParts)
    ∧ (checkFilesAndFolders folderPats filePats baseComps entries).Sublist
        (entries.map (fun e => String.intercalate "/" e.relParts)) := by
  refine ⟨checkFilesAndFolders_eq_filter folderPats filePats baseComps entries, ?_⟩
  rw [checkFilesAndFolders_eq_filter]
  exact (List.filter_sublist entries).map _

/-- C6 counterexample: a path that ends in `.py` but whose final component
is the bare dotfile name `.py` has empty `pathlib` suffix, so the code
classifies it `"unknown"`, not `"python"`. -/
theorem classify_dotfile_cex :
    classify ".py" = "unknown" ∧ ("unknown" : String) ≠ "python" :=
  ⟨by decide, by decide⟩

/-- C6 (amended): classification is a pure total function of the
lowercased `pathlib` suffix of the path's final component over the fixed
table, `"unknown"` for unmapped suffixes: every path whose suffix is
`.py` (a proper extension, not a bare dotfile) classifies `"python"`,
and every path whose suffix is absent from the table classifies
`"unknown"`. -/
theorem classify_total_by_extension (p q : String)
    (hp : extOf p = ".py") (hq : LANGUAGE_MAP.lookup (extOf q) = none) :
    classify p = "python" ∧ classify q = "unknown" := by
  constructor
  · unfold classify
    rw [hp]
    rfl
  · unfold classify
    rw [hq]

/-- Witness for C6 (amended) at concrete inputs: `main.py` is `"python"`,
`data.xyz` is `"unknown"`. -/
theorem classify_total_by_extension_witness :
    classify "main.py" = "python" ∧ classify "data.xyz" = "unknown" :=
  classify_total_by_extension "main.py" "data.xyz" (by decide) (by decide)

/-- C7: `list(dict.fromkeys(...))` keeps the first occurrence of each
name in order — on `[a, b, a, c]` with distinct names it yields
`[a, b, c]` — and is idempotent: a second application changes nothing. -/
theorem dictFromKeys_first_seen_idempotent (a b c : String)
    (hab : a ≠ b) (hac : a ≠ c) (hbc : b ≠ c) :
    dictFromKeys [a, b, a, c] = [a, b, c]
    ∧ ∀ xs : List String, dictFromKeys (dictFromKeys xs) = dictFromKeys xs := by
  constructor
  · simp [dictFromKeys, dictFromKeysAux, Ne.symm hab, Ne.symm hac, Ne.symm hbc]
  · intro xs
    exact dictFromKeysAux_of_nodup (dictFromKeys xs) [] (dictFromKeysAux_nodup xs [])
      (fun y _ h => List.not_mem_nil y h)

/-- Witness for C7 at concrete names. -/
theorem dictFromKeys_first_seen_idempotent_witness :
    dictFromKeys ["a", "b", "a", "c"] = ["a", "b", "c"] :=
  (dictFromKeys_first_seen_idempotent "a" "b" "c" (by decide) (by decide) (by decide)).1

/-- C8: a per-file failure inside the `generate_overall_structure` loop
does not abort the run: when the file `name` (occurring once) fails, the
resulting structure is exactly the structure of the remaining files —
every other file is still processed as if the failing file were absent —
and no entry for the failing file appears. -/
theorem generateOverallStructure_error_contained (α : Type)
    (l₁ l₂ : List (String × Except String α)) (name msg : String)
    (hothers : ∀ p ∈ l₁ ++ l₂, p.1 ≠ name) :
    generateOverallStructure (l₁ ++ (name, Except.error msg) :: l₂)
      = generateOverallStructure l₁ ++ generateOverallStructure l₂
    ∧ ∀ v : α, (name, v) ∉ generateOverallStructure (l₁ ++ (name, Except.error msg) :: l₂) := by
  constructor
  · rw [generateOverallStructure_eq_filterMap, generateOverallStructure_eq_filterMap,
      generateOverallStructure_eq_filterMap, List.filterMap_append, List.filterMap_cons]
  · intro v hv
    rw [generateOverallStructure_eq_filterMap] at hv
    rcases List.mem_filterMap.1 hv with ⟨⟨pn, pe⟩, hp, hpe⟩
    cases pe with
    | ok w =>
      simp only [Option.some.injEq, Prod.mk.injEq] at hpe
      rcases List.mem_append.1 hp with hL | hR
      · exact hothers (pn, Except.ok w) (List.mem_append_left l₂ hL) hpe.1
      · rcases List.mem_cons.1 hR with hmid | hr2
        · simp at hmid
        · exact hothers (pn, Except.ok w) (List.mem_append_right l₁ hr2) hpe.1
    | error m => simp at hpe

/-- Witness for C8 at a concrete run: `bad.py` fails, `good1.py` and
`good2.py` still succeed. -/
theorem generateOverallStructure_error_contained_witness :
    generateOverallStructure
      [("good1.py", Except.ok (1 : Nat)), ("bad.py", Except.error "boom"),
       ("good2.py", Except.ok 2)]
      = [("good1.py", 1), ("good2.py", 2)] := by
  have h := (generateOverallStructure_error_contained Nat
    [("good1.py", Except.ok 1)] [("good2.py", Except.ok 2)] "bad.py" "boom"
    (by simp)).1
  exact h.trans (by rfl)

/-- C9: the repository-name derivation deletes every occurrence of
`.git` inside the second path segment — `my.github-tools` becomes
`myhub-tools`, which is not the segment with a trailing `.git` suffix
removed (the segment has no such suffix) — while for an ordinary
`demo.git` segment the result coincides with suffix removal. -/
theorem repoName_removes_every_dotgit :
    repoNameOfPath "/owner/my.github-tools" = some "myhub-tools"
    ∧ ("myhub-tools" : String) ≠ "my.github-tools"
    ∧ repoNameOfPath "/owner/demo.git" = some "demo" :=
  ⟨by decide, by decide, by decide⟩

/-- C10: the folder patterns are tested against the base names of ALL
ancestors of each candidate, including the scan root and every directory
above it: if any component of the root's own absolute path matches a
folder pattern, every candidate is skipped and the enumeration returns
the empty list. -/
theorem checkFilesAndFolders_ignored_root_ancestor
    (folderPats filePats baseComps : List String) (entries : List FSEntry)
    (hrel : ∀ e ∈ entries, e.relParts ≠ [])
    (c : String) (hc : c ∈ baseComps) (hm : isIgnored c folderPats = true) :
    checkFilesAndFolders folderPats filePats baseComps entries = [] := by
  rw [checkFilesAndFolders_eq_filter]
  have hfil : entries.filter (includedEntry folderPats filePats baseComps) = [] := by
    rw [List.filter_eq_nil_iff]
    intro e he
    have hmem := mem_ancestorsNames_of_mem_base hc (hrel e he)
    have hany : (ancestorsNames (baseComps ++ e.relParts)).any
        (fun n => isIgnored n folderPats) = true :=
      List.any_eq_true.2 ⟨c, hmem, hm⟩
    simp [includedEntry, hany]
  rw [hfil]
  rfl

/-- Witness for C10 at a concrete input: scanning a root located under a
directory named `build` (matching folder pattern `build`) yields nothing,
even though the root contains a perfectly good `a.py`. -/
theorem checkFilesAndFolders_ignored_root_ancestor_witness :
    checkFilesAndFolders ["build"] [] ["home", "build", "repo"]
      [⟨["a.py"], true⟩] = [] :=
  checkFilesAndFolders_ignored_root_ancestor ["build"] [] ["home", "build", "repo"]
    [⟨["a.py"], true⟩] (by decide) "build" (by decide) (by decide)
